import Mathlib

/-!
Verification of the Anthropic chat-completion adapter
(`letta/llm_api/anthropic_client.py`) against its natural-language
specification.  The Python module is shallowly embedded: pure functions
become Lean functions, the one piece of mutable state
(`self.llm_config`, mutated by `build_request_data`) is modelled by
explicit state passing (the builder returns the post-call client state
next to its result), and fallible code returns `Except`.
-/

namespace AnthropicAdapter

/-- JSON values, used for tool parameter schemas, `tool_use` inputs, and
provider content blocks.  Numbers are restricted to integers: every JSON
number appearing in the adapter's own logic (tool-use inputs in the spec
examples) is an integer. -/
inductive Json where
  | null : Json
  | bool (b : Bool) : Json
  | num (n : Int) : Json
  | str (s : String) : Json
  | arr (elems : List Json) : Json
  | obj (fields : List (String × Json)) : Json
  deriving Repr

/-- Content of a provider-side message dict: either a scalar string or a
list of content blocks (arbitrary JSON dicts). -/
inductive Content where
  | str (s : String) : Content
  | blocks (bs : List Json) : Content
  deriving Repr

/-- A provider-side per-message dict, as produced by
`Message.to_anthropic_dict`: a `role` and a `content`. -/
structure AMsg where
  role : String
  content : Content
  deriving Repr

/-- The scalar-to-block wrapping performed inside
`merge_tool_results_into_user_messages`: list content is used as is,
scalar content is wrapped as a single text block. -/
def wrapContent : Content → List Json
  | .blocks bs => bs
  | .str s => [Json.obj [("type", Json.str "text"), ("text", Json.str s)]]

/-- The merging loop of `merge_tool_results_into_user_messages`: walks the
tail of the list with the current (possibly already merged) message as
accumulator; two consecutive `user` messages are merged by concatenating
their (wrapped) content blocks. -/
def mergeGo (current : AMsg) : List AMsg → List AMsg
  | [] => [current]
  | next :: rest =>
    if current.role = "user" ∧ next.role = "user" then
      mergeGo ⟨current.role, .blocks (wrapContent current.content ++ wrapContent next.content)⟩ rest
    else
      current :: mergeGo next rest

/-- `merge_tool_results_into_user_messages` from the source: merges every
run of consecutive `user` messages into a single message. -/
def merge_tool_results_into_user_messages : List AMsg → List AMsg
  | [] => []
  | m :: rest => mergeGo m rest

/-- Two adjacent messages are not both of role `user`. -/
def NotBothUser (a b : AMsg) : Prop := ¬(a.role = "user" ∧ b.role = "user")

lemma mergeGo_cons_eq (c next : AMsg) (rest : List AMsg) :
    mergeGo c (next :: rest) =
      if c.role = "user" ∧ next.role = "user" then
        mergeGo ⟨c.role, .blocks (wrapContent c.content ++ wrapContent next.content)⟩ rest
      else
        c :: mergeGo next rest := rfl

lemma mergeGo_cons (xs : List AMsg) : ∀ c : AMsg, ∃ d ys, mergeGo c xs = d :: ys ∧ d.role = c.role := by
  induction xs with
  | nil => intro c; exact ⟨c, [], rfl, rfl⟩
  | cons x t ih =>
    intro c
    by_cases h : c.role = "user" ∧ x.role = "user"
    · obtain ⟨d, ys, he, hr⟩ := ih ⟨c.role, .blocks (wrapContent c.content ++ wrapContent x.content)⟩
      refine ⟨d, ys, ?_, hr⟩
      rw [mergeGo_cons_eq, if_pos h]
      exact he
    · refine ⟨c, mergeGo x t, ?_, rfl⟩
      rw [mergeGo_cons_eq, if_neg h]

lemma mergeGo_chain (xs : List AMsg) : ∀ c : AMsg, List.Chain' NotBothUser (mergeGo c xs) := by
  induction xs with
  | nil => intro c; simp [mergeGo]
  | cons x t ih =>
    intro c
    rw [mergeGo_cons_eq]
    by_cases h : c.role = "user" ∧ x.role = "user"
    · rw [if_pos h]; exact ih _
    · rw [if_neg h]
      obtain ⟨d, ys, he, hr⟩ := mergeGo_cons t x
      have hchain := ih x
      rw [he] at hchain ⊢
      refine List.Chain'.cons ?_ hchain
      show ¬(c.role = "user" ∧ d.role = "user")
      rw [hr]
      exact h

/-- The output of the merging step never contains two adjacent `user`
messages. -/
lemma merge_chain (msgs : List AMsg) :
    List.Chain' NotBothUser (merge_tool_results_into_user_messages msgs) := by
  cases msgs with
  | nil => simp [merge_tool_results_into_user_messages]
  | cons m rest => exact mergeGo_chain rest m

/-- On a list with no two adjacent `user` messages, the merging step is
the identity. -/
lemma merge_fixpoint : ∀ msgs : List AMsg,
    List.Chain' NotBothUser msgs → merge_tool_results_into_user_messages msgs = msgs := by
  intro msgs h
  cases msgs with
  | nil => rfl
  | cons m rest =>
    show mergeGo m rest = m :: rest
    induction rest generalizing m with
    | nil => rfl
    | cons x t ih =>
      rw [List.chain'_cons] at h
      rw [mergeGo_cons_eq, if_neg h.1, ih x h.2]

/-- Role of the last element of the nonempty list `c :: xs`. -/
def lastRole : AMsg → List AMsg → String
  | c, [] => c.role
  | _, x :: xs => lastRole x xs

lemma lastRole_congr : ∀ (xs : List AMsg) (a b : AMsg), a.role = b.role → lastRole a xs = lastRole b xs
  | [], _, _, h => h
  | _ :: _, _, _, _ => rfl

lemma lastRole_getLast : ∀ (xs : List AMsg) (c : AMsg), ∃ l, (c :: xs).getLast? = some l ∧ l.role = lastRole c xs := by
  intro xs
  induction xs with
  | nil => intro c; exact ⟨c, rfl, rfl⟩
  | cons x t ih =>
    intro c
    obtain ⟨l, hl, hr⟩ := ih x
    exact ⟨l, by rw [List.getLast?_cons_cons]; exact hl, hr⟩

/-- Splitting the merge loop at a boundary where no user-user merge can
happen. -/
lemma mergeGo_append (xs : List AMsg) : ∀ (c : AMsg) (ys : List AMsg),
    (∀ y, ys.head? = some y → ¬(lastRole c xs = "user" ∧ y.role = "user")) →
    mergeGo c (xs ++ ys) = mergeGo c xs ++ merge_tool_results_into_user_messages ys := by
  induction xs with
  | nil =>
    intro c ys hb
    cases ys with
    | nil => rfl
    | cons y ys' =>
      have hn : ¬(c.role = "user" ∧ y.role = "user") := hb y rfl
      rw [List.nil_append, mergeGo_cons_eq, if_neg hn]
      rfl
  | cons x t ih =>
    intro c ys hb
    rw [List.cons_append, mergeGo_cons_eq, mergeGo_cons_eq]
    by_cases h : c.role = "user" ∧ x.role = "user"
    · rw [if_pos h, if_pos h]
      have hlr : lastRole ⟨c.role, Content.blocks (wrapContent c.content ++ wrapContent x.content)⟩ t
          = lastRole x t :=
        lastRole_congr t _ _ (h.1.trans h.2.symm)
      apply ih
      intro y hy
      rw [hlr]
      exact hb y hy
    · rw [if_neg h, if_neg h, ih x ys hb, List.cons_append]

/-- Collapsing a (remaining) run of `user` messages followed by a
non-`user` boundary. -/
lemma mergeGo_run (rs : List AMsg) : ∀ (r : AMsg) (ys : List AMsg),
    r.role = "user" → (∀ m ∈ rs, m.role = "user") →
    (∀ y, ys.head? = some y → y.role ≠ "user") →
    mergeGo r (rs ++ ys) =
      (if rs.isEmpty then r
       else ⟨"user", .blocks (wrapContent r.content ++ (rs.map (fun m => wrapContent m.content)).flatten)⟩)
        :: merge_tool_results_into_user_messages ys := by
  induction rs with
  | nil =>
    intro r ys hr _ hy
    cases ys with
    | nil => rfl
    | cons y ys' =>
      have hn : ¬(r.role = "user" ∧ y.role = "user") := fun hc => hy y rfl hc.2
      rw [List.nil_append, mergeGo_cons_eq, if_neg hn]
      rfl
  | cons r₁ rs' ih =>
    intro r ys hr hall hy
    have hr₁ : r₁.role = "user" := hall r₁ (by simp)
    rw [List.cons_append, mergeGo_cons_eq, if_pos ⟨hr, hr₁⟩,
      ih ⟨r.role, .blocks (wrapContent r.content ++ wrapContent r₁.content)⟩ ys hr
        (fun m hm => hall m (List.mem_cons_of_mem _ hm)) hy]
    cases rs' with
    | nil => simp [wrapContent, hr]
    | cons a b =>
      simp only [List.isEmpty_cons, if_false, List.map_cons, List.flatten_cons, List.cons.injEq,
        Bool.false_eq_true]
      refine ⟨?_, trivial⟩
      congr 1
      simp [wrapContent, List.append_assoc]

lemma merge_cons_eq (m : AMsg) (rest : List AMsg) :
    merge_tool_results_into_user_messages (m :: rest) = mergeGo m rest := rfl

/-- Merging a whole run of at least two `user` messages sitting at the
front, followed by a non-`user` boundary. -/
lemma merge_run_head (r r₁ : AMsg) (rs post : List AMsg)
    (hall : ∀ m ∈ r :: r₁ :: rs, m.role = "user")
    (hpost : ∀ q, post.head? = some q → q.role ≠ "user") :
    merge_tool_results_into_user_messages ((r :: r₁ :: rs) ++ post) =
      ⟨"user", .blocks (((r :: r₁ :: rs).map (fun m => wrapContent m.content)).flatten)⟩ ::
        merge_tool_results_into_user_messages post := by
  rw [List.cons_append, merge_cons_eq,
    mergeGo_run (r₁ :: rs) r post (hall r (by simp))
      (fun m hm => hall m (List.mem_cons_of_mem _ hm)) hpost]
  simp only [List.isEmpty_cons, if_false, Bool.false_eq_true, List.map_cons, List.flatten_cons,
    List.cons.injEq, and_true]

/-- Claim C2: every run of two or more consecutive `user` messages is
merged by `merge_tool_results_into_user_messages` into exactly one
message whose content blocks are the in-order concatenation of the
(scalar-wrapped) content blocks of the messages of the run, and the
output never contains two adjacent `user` messages. -/
theorem merge_user_run_correct :
    (∀ msgs : List AMsg, List.Chain' NotBothUser (merge_tool_results_into_user_messages msgs)) ∧
    (∀ (pre run post : List AMsg), 2 ≤ run.length →
      (∀ m ∈ run, m.role = "user") →
      (∀ p, pre.getLast? = some p → p.role ≠ "user") →
      (∀ q, post.head? = some q → q.role ≠ "user") →
      merge_tool_results_into_user_messages (pre ++ (run ++ post)) =
        merge_tool_results_into_user_messages pre ++
          ⟨"user", .blocks ((run.map (fun m => wrapContent m.content)).flatten)⟩ ::
            merge_tool_results_into_user_messages post) := by
  refine ⟨merge_chain, ?_⟩
  intro pre run post hlen hall hpre hpost
  match run, hlen with
  | r :: r₁ :: rs, _ =>
    cases pre with
    | nil =>
      rw [List.nil_append, merge_run_head r r₁ rs post hall hpost]
      rfl
    | cons p₀ ps =>
      rw [List.cons_append, merge_cons_eq, merge_cons_eq,
        mergeGo_append ps p₀ ((r :: r₁ :: rs) ++ post) ?_,
        merge_run_head r r₁ rs post hall hpost]
      intro y hy hc
      rw [List.cons_append] at hy
      have hyr : y = r := by
        simpa using hy.symm
      obtain ⟨l, hl, hlr⟩ := lastRole_getLast ps p₀
      exact hpre l hl (hlr.trans hc.1)

/-- Claim C9: the consecutive-user-message merging step is idempotent. -/
theorem merge_idempotent (msgs : List AMsg) :
    merge_tool_results_into_user_messages (merge_tool_results_into_user_messages msgs) =
      merge_tool_results_into_user_messages msgs :=
  merge_fixpoint _ (merge_chain msgs)

/-- Witness for claim C2 at a concrete input: an assistant message
followed by a run of two user messages. -/
theorem merge_user_run_correct_witness :
    merge_tool_results_into_user_messages
        ([⟨"assistant", .str "a"⟩] ++ ([⟨"user", .str "u1"⟩, ⟨"user", .str "u2"⟩] ++ [])) =
      merge_tool_results_into_user_messages [⟨"assistant", .str "a"⟩] ++
        ⟨"user", .blocks ((([⟨"user", .str "u1"⟩, ⟨"user", .str "u2"⟩] : List AMsg).map
          (fun m => wrapContent m.content)).flatten)⟩ ::
          merge_tool_results_into_user_messages [] := by
  refine merge_user_run_correct.2 _ _ _ (by simp) ?_ ?_ ?_
  · intro m hm
    simp only [List.mem_cons, List.not_mem_nil, or_false] at hm
    rcases hm with rfl | rfl <;> rfl
  · intro p hp
    rw [List.getLast?_singleton] at hp
    injection hp with h
    subst h
    decide
  · intro q hq
    simp at hq

/-- The Python module-level constant `DUMMY_FIRST_USER_MESSAGE`. -/
def DUMMY_FIRST_USER_MESSAGE : String := "User initializing bootup sequence."

/-- The fixed wrapper tag name used for inline reasoning
(`inner_thoughts_xml_tag` in `build_request_data`). -/
def inner_thoughts_xml_tag : String := "thinking"

/-- Modelled from the spec: the fixed name of the synthetic reasoning
parameter (`INNER_THOUGHTS_KWARG` from `letta/local_llm/constants.py`,
which is not part of the given sources). -/
def INNER_THOUGHTS_KWARG : String := "inner_thoughts"

/-- Modelled from the spec: the fixed description of the synthetic
reasoning parameter (`INNER_THOUGHTS_KWARG_DESCRIPTION` from
`letta/local_llm/constants.py`, not part of the given sources). -/
def INNER_THOUGHTS_KWARG_DESCRIPTION : String :=
  "Deep inner monologue private to you only."

/-- An OpenAI-style tool function dict: `name`, `description`,
`parameters`. -/
structure ToolFunction where
  name : String
  description : Option String
  parameters : Option Json
  deriving Repr

/-- Python truthiness of a JSON value (`None`, `False`, `0`, `""`, `[]`
and `{}` are falsy). -/
def jsonTruthy : Json → Bool
  | .null => false
  | .bool b => b
  | .num n => n != 0
  | .str s => s != ""
  | .arr xs => !xs.isEmpty
  | .obj fs => !fs.isEmpty

/-- The parameter schema of the synthetic reasoning parameter. -/
def innerThoughtsParamSchema : Json :=
  .obj [("type", .str "string"), ("description", .str INNER_THOUGHTS_KWARG_DESCRIPTION)]

/-- Helper of `injectInnerThoughts`: add the synthetic parameter to a
`properties` object. -/
def addInnerThoughtsProp : Json → Json
  | .obj props => .obj (props ++ [(INNER_THOUGHTS_KWARG, innerThoughtsParamSchema)])
  | j => j

/-- Helper of `injectInnerThoughts`: add the synthetic parameter name to
a `required` array. -/
def addInnerThoughtsReq : Json → Json
  | .arr rs => .arr (rs ++ [.str INNER_THOUGHTS_KWARG])
  | j => j

/-- Modelled from the spec: the schema rewriting done by
`add_inner_thoughts_to_functions` (from `letta/llm_api/helpers.py`, not
part of the given sources): inject a synthetic required string parameter
with fixed name and description into a tool's parameter schema. -/
def injectInnerThoughts : Json → Json
  | .obj fields =>
    .obj (fields.map (fun kv =>
      if kv.1 = "properties" then (kv.1, addInnerThoughtsProp kv.2)
      else if kv.1 = "required" then (kv.1, addInnerThoughtsReq kv.2)
      else kv))
  | j => j

/-- Modelled from the spec: `add_inner_thoughts_to_functions` from
`letta/llm_api/helpers.py` (not part of the given sources) injects the
synthetic required reasoning parameter into every tool. -/
def add_inner_thoughts_to_functions (fns : List ToolFunction) : List ToolFunction :=
  fns.map fun f => { f with parameters := some (injectInnerThoughts (f.parameters.getD (Json.obj []))) }

/-- A provider-shape tool: `{name, description, input_schema}`. -/
structure AnthropicTool where
  name : String
  description : Option String
  input_schema : Json
  deriving Repr

/-- The empty-object default schema used when a tool has no (truthy)
parameter schema. -/
def defaultInputSchema : Json :=
  .obj [("type", .str "object"), ("properties", .obj []), ("required", .arr [])]

/-- `convert_tools_to_anthropic_format` from the source: one level less
of nesting and `parameters` becomes `input_schema` (defaulted when the
canonical schema is falsy). -/
def convert_tools_to_anthropic_format (tools : List ToolFunction) : List AnthropicTool :=
  tools.map fun t =>
    ⟨t.name, t.description,
      match t.parameters with
      | some p => if jsonTruthy p then p else defaultInputSchema
      | none => defaultInputSchema⟩

/-- The relevant fields of `LLMConfig`.  `temperature` is a rational:
the adapter only copies it or overwrites it with the literal 1.0, so no
floating-point behaviour is involved. -/
structure LLMConfig where
  model : String
  max_tokens : Option Nat
  temperature : ℚ
  enable_reasoner : Bool
  max_reasoning_tokens : Option Nat
  put_inner_thoughts_in_kwargs : Bool
  deriving Repr, DecidableEq

/-- The state of an `AnthropicClient` visible to `build_request_data`:
the `use_tool_naming` flag (from `LLMClientBase`) and the shared, mutable
`llm_config`. -/
structure Client where
  use_tool_naming : Bool
  llm_config : LLMConfig
  deriving Repr, DecidableEq

/-- The exceptions `build_request_data` can raise. -/
inductive BuildErr where
  | notImplementedToolCalling
  | valueErrorMaxTokens
  | assertBudget
  | assertKwargsIncompatible
  | runtimeFirstNotSystem (found : String)
  | indexError
  deriving Repr, DecidableEq

/-- The `thinking` field of the request payload. -/
structure ThinkingParam where
  type : String
  budget_tokens : Nat
  deriving Repr, DecidableEq

/-- The provider request payload assembled by `build_request_data`.
`tools` is `none` when the key is not set. -/
structure RequestData where
  model : String
  max_tokens : Nat
  temperature : ℚ
  thinking : Option ThinkingParam
  tools : Option (List AnthropicTool)
  system : Content
  messages : List AMsg
  deriving Repr

/-- Boolean prefix test on character lists. -/
def isPre : List Char → List Char → Bool
  | [], _ => true
  | _ :: _, [] => false
  | a :: as, b :: bs => if a = b then isPre as bs else false

/-- Python's `needle in hay` substring test. -/
def hasSubstring : List Char → List Char → Bool
  | [], needle => isPre needle []
  | c :: t, needle => isPre needle (c :: t) || hasSubstring t needle

/-- The "ensure first message is user" step of `build_request_data`:
prepend the fixed placeholder user message when the first remaining
message is not a `user` message; Python raises `IndexError` when the
list is empty. -/
def ensure_first_user : List AMsg → Except BuildErr (List AMsg)
  | [] => .error .indexError
  | m :: rest =>
    .ok (if m.role ≠ "user" then ⟨"user", .str DUMMY_FIRST_USER_MESSAGE⟩ :: m :: rest else m :: rest)

/-- The message post-processing of `build_request_data` (lines 123-135):
check the first message has role `system` and move its content out, make
the first remaining message a `user` message, merge consecutive `user`
messages. -/
def process_messages (msgs : List AMsg) : Except BuildErr (Content × List AMsg) :=
  match msgs with
  | [] => .error .indexError
  | m0 :: rest =>
    if m0.role ≠ "system" then .error (.runtimeFirstNotSystem m0.role)
    else
      match ensure_first_user rest with
      | .error e => .error e
      | .ok msgs2 => .ok (m0.content, merge_tool_results_into_user_messages msgs2)

/-- The extended-thinking budget check (first assert at line 76):
`max_reasoning_tokens is not None and max_reasoning_tokens < max_tokens`. -/
def budgetOk (cfg : LLMConfig) (maxTok : Nat) : Bool :=
  match cfg.max_reasoning_tokens with
  | none => false
  | some b => decide (b < maxTok)

/-- `build_request_data` reaches its tool-handling section (line 92) iff
these configuration gates pass. -/
def configChecksPass (c : Client) : Bool :=
  c.use_tool_naming &&
    (match c.llm_config.max_tokens with
     | none => false
     | some M => decide (M ≠ 0) &&
         (!c.llm_config.enable_reasoner ||
           (budgetOk c.llm_config M && !c.llm_config.put_inner_thoughts_in_kwargs)))

/-- The mutation of shared state performed at line 98 of the source:
`self.llm_config.put_inner_thoughts_in_kwargs = True`. -/
def enableKwargs (c : Client) : Client :=
  { c with llm_config := { c.llm_config with put_inner_thoughts_in_kwargs := true } }

/-- `AnthropicClient.build_request_data` from the source.  Messages are
modelled after their conversion by `Message.to_anthropic_dict` (external
to the given sources), i.e. as role/content dicts.  The second component
of the result is the client state after the call: Python's
`self.llm_config` is mutated in place at line 98. -/
def build_request_data (client : Client) (messages : List AMsg) (tools : List ToolFunction)
    (tool_call : Option String) (force_tool_call : Option String) :
    Except BuildErr RequestData × Client :=
  if !client.use_tool_naming then (.error .notImplementedToolCalling, client)
  else
    match client.llm_config.max_tokens with
    | none => (.error .valueErrorMaxTokens, client)
    | some maxTok =>
      if maxTok = 0 then (.error .valueErrorMaxTokens, client)
      else
        let cfg := client.llm_config
        if cfg.enable_reasoner && !budgetOk cfg maxTok then (.error .assertBudget, client)
        else if cfg.enable_reasoner && cfg.put_inner_thoughts_in_kwargs then
          (.error .assertKwargsIncompatible, client)
        else
          let temperature : ℚ := if cfg.enable_reasoner then 1 else cfg.temperature
          let thinking : Option ThinkingParam :=
            if cfg.enable_reasoner then some ⟨"enabled", cfg.max_reasoning_tokens.getD 0⟩ else none
          let prefixFillFlag := !cfg.enable_reasoner
          let tools_for_request :=
            match force_tool_call with
            | some fname => tools.filter (fun f => decide (f.name = fname))
            | none => tools
          let client' := if force_tool_call.isSome then enableKwargs client else client
          let put' := client'.llm_config.put_inner_thoughts_in_kwargs
          let tools2 :=
            if !tools_for_request.isEmpty && put' then
              add_inner_thoughts_to_functions tools_for_request
            else tools_for_request
          let toolsField :=
            if !tools2.isEmpty then some (convert_tools_to_anthropic_format tools2) else none
          match process_messages messages with
          | .error e => (.error e, client')
          | .ok (sys, baseMsgs) =>
            let doPrefill := prefixFillFlag && !put' && !hasSubstring cfg.model.data "opus".data
            let finalMsgs :=
              if doPrefill then
                baseMsgs ++ [⟨"assistant", .str ("<" ++ inner_thoughts_xml_tag ++ ">")⟩]
              else baseMsgs
            (.ok ⟨cfg.model, maxTok, temperature, thinking, toolsField, sys, finalMsgs⟩, client')

lemma configChecksPass_iff (c : Client) :
    configChecksPass c = true ↔
      c.use_tool_naming = true ∧
        ∃ M, c.llm_config.max_tokens = some M ∧ M ≠ 0 ∧
          (c.llm_config.enable_reasoner = true →
            budgetOk c.llm_config M = true ∧
              c.llm_config.put_inner_thoughts_in_kwargs = false) := by
  unfold configChecksPass
  cases hmt : c.llm_config.max_tokens with
  | none => simp [hmt]
  | some M =>
    cases hr : c.llm_config.enable_reasoner <;>
      cases hk : c.llm_config.put_inner_thoughts_in_kwargs <;>
        simp [hmt, hr, hk, and_assoc]

/-- Claim C1 (amended): `build_request_data` is not state-free.  Its
effect on the client state is exactly this: when `force_tool_call` is
set and the configuration gates are passed, the shared `llm_config` has
`put_inner_thoughts_in_kwargs` persistently set to `True`; in every
other case the state is returned unchanged. -/
theorem build_request_data_state_change (c : Client) (msgs : List AMsg)
    (tools : List ToolFunction) (tc fc : Option String) :
    (build_request_data c msgs tools tc fc).2 =
      if fc.isSome && configChecksPass c then enableKwargs c else c := by
  unfold build_request_data configChecksPass
  cases hu : c.use_tool_naming with
  | false => simp [hu]
  | true =>
    cases hmt : c.llm_config.max_tokens with
    | none => simp [hmt]
    | some M =>
      by_cases hM : M = 0
      · simp [hmt, hM]
      · cases hr : c.llm_config.enable_reasoner with
        | false =>
          cases hpm : process_messages msgs with
          | error e => simp [hmt, hM, hr, hpm]
          | ok v => simp [hmt, hM, hr, hpm]
        | true =>
          cases hb : budgetOk c.llm_config M with
          | false => simp [hmt, hM, hr, hb]
          | true =>
            cases hk : c.llm_config.put_inner_thoughts_in_kwargs with
            | false =>
              cases hpm : process_messages msgs with
              | error e => simp [hmt, hM, hr, hb, hk, hpm]
              | ok v => simp [hmt, hM, hr, hb, hk, hpm]
            | true => simp [hmt, hM, hr, hb, hk]

/-- A concrete client configuration used in counterexamples and
witnesses: tool naming on, max tokens set, reasoning off, inner-thoughts
kwarg mode off. -/
def cexClient : Client :=
  ⟨true, ⟨"claude-3-sonnet", some 100, 1, false, none, false⟩⟩

/-- Claim C1 counterexample: calling `build_request_data` with
`force_tool_call` set leaves the configuration object changed after the
call — `put_inner_thoughts_in_kwargs` has been switched on persistently,
refuting the claim that all component state is exactly as before. -/
theorem build_request_data_mutation_cex :
    (build_request_data cexClient
        [⟨"system", .str "sys"⟩, ⟨"user", .str "hi"⟩]
        [⟨"send_message", some "d", none⟩] none (some "send_message")).2 ≠ cexClient := by
  decide

lemma build_fst_error (c : Client) (msgs : List AMsg) (tools : List ToolFunction)
    (tc fc : Option String) (M : Nat)
    (hu : c.use_tool_naming = true) (hmt : c.llm_config.max_tokens = some M) (hM : M ≠ 0)
    (hrk : c.llm_config.enable_reasoner = true →
      budgetOk c.llm_config M = true ∧ c.llm_config.put_inner_thoughts_in_kwargs = false)
    (e : BuildErr) (hpm : process_messages msgs = .error e) :
    (build_request_data c msgs tools tc fc).1 = .error e := by
  unfold build_request_data
  cases hr : c.llm_config.enable_reasoner with
  | false => simp [hu, hmt, hM, hr, hpm]
  | true =>
    obtain ⟨hb, hk⟩ := hrk hr
    simp [hu, hmt, hM, hr, hb, hk, hpm]

lemma build_fst_ok (c : Client) (msgs : List AMsg) (tools : List ToolFunction)
    (tc fc : Option String) (M : Nat)
    (hu : c.use_tool_naming = true) (hmt : c.llm_config.max_tokens = some M) (hM : M ≠ 0)
    (hrk : c.llm_config.enable_reasoner = true →
      budgetOk c.llm_config M = true ∧ c.llm_config.put_inner_thoughts_in_kwargs = false)
    (sys : Content) (base : List AMsg)
    (hpm : process_messages msgs = .ok (sys, base)) :
    ∃ d, (build_request_data c msgs tools tc fc).1 = .ok d ∧
      d.system = sys ∧
      d.temperature = (if c.llm_config.enable_reasoner = true then 1 else c.llm_config.temperature) ∧
      (d.messages = base ∨
        d.messages = base ++ [⟨"assistant", .str ("<" ++ inner_thoughts_xml_tag ++ ">")⟩]) ∧
      (c.llm_config.enable_reasoner = true → d.messages = base) := by
  unfold build_request_data
  cases hr : c.llm_config.enable_reasoner with
  | false =>
    simp only [hu, hmt, hM, hr, hpm, Bool.not_true, Bool.false_eq_true, if_false, ite_false,
      Bool.not_false, Bool.false_and, Bool.true_and, ne_eq, not_false_eq_true, if_true, ite_true]
    refine ⟨_, rfl, rfl, rfl, ?_, fun hc => absurd hc (by simp)⟩
    dsimp only
    split
    · split
      · exact Or.inr rfl
      · exact Or.inl rfl
    · split
      · exact Or.inr rfl
      · exact Or.inl rfl
  | true =>
    obtain ⟨hb, hk⟩ := hrk hr
    simp only [hu, hmt, hM, hr, hb, hk, hpm, Bool.not_true, Bool.false_eq_true, if_false,
      ite_false, Bool.and_false, Bool.false_and, ne_eq, not_false_eq_true, if_true, ite_true]
    exact ⟨_, rfl, rfl, rfl, Or.inl rfl, fun _ => rfl⟩

/-- Claim C3 (amended): with the configuration gates passed, if the
first message does not have role `system` the build fails with the
protocol-violation error; if it does and at least one message follows,
the build succeeds, the system message's content becomes the payload's
top-level `system` field, and the payload's message list is computed
from the remaining messages only (the system message is dropped), up to
the optional trailing prefix-fill message. -/
theorem build_first_message_system (c : Client) (msgs : List AMsg) (tools : List ToolFunction)
    (tc fc : Option String) (m0 : AMsg) (rest : List AMsg)
    (hcfg : configChecksPass c = true) (hm : msgs = m0 :: rest) :
    (m0.role ≠ "system" →
      (build_request_data c msgs tools tc fc).1 = .error (.runtimeFirstNotSystem m0.role)) ∧
    (m0.role = "system" → rest ≠ [] →
      ∃ d, (build_request_data c msgs tools tc fc).1 = .ok d ∧
        d.system = m0.content ∧
        ∃ msgs2, ensure_first_user rest = .ok msgs2 ∧
          (d.messages = merge_tool_results_into_user_messages msgs2 ∨
           d.messages = merge_tool_results_into_user_messages msgs2 ++
             [⟨"assistant", .str ("<" ++ inner_thoughts_xml_tag ++ ">")⟩])) := by
  obtain ⟨hu, M, hmt, hM, hrk⟩ := (configChecksPass_iff c).mp hcfg
  subst hm
  constructor
  · intro hns
    apply build_fst_error c _ tools tc fc M hu hmt hM hrk
    simp [process_messages, hns]
  · intro hs hrest
    obtain ⟨m1, rest', rfl⟩ : ∃ m1 rest', rest = m1 :: rest' := by
      cases rest with
      | nil => exact absurd rfl hrest
      | cons a b => exact ⟨a, b, rfl⟩
    obtain ⟨msgs2, hef⟩ : ∃ msgs2, ensure_first_user (m1 :: rest') = .ok msgs2 := ⟨_, rfl⟩
    have hpm : process_messages (m0 :: m1 :: rest') =
        .ok (m0.content, merge_tool_results_into_user_messages msgs2) := by
      simp only [process_messages, hs, ne_eq, not_true_eq_false, if_false, hef]
    obtain ⟨d, hd, hsys, _, hmsgs, _⟩ :=
      build_fst_ok c (m0 :: m1 :: rest') tools tc fc M hu hmt hM hrk _ _ hpm
    exact ⟨d, hd, hsys, msgs2, hef, hmsgs⟩

/-- Claim C3 counterexample: when the message list consists of the
system message alone, `build_request_data` does not return a payload
with the content moved to the `system` field — it fails with an
IndexError while checking that the first remaining message is a user
message. -/
theorem build_system_only_cex :
    (build_request_data cexClient [⟨"system", .str "sys"⟩] [] none none).1
        = .error .indexError ∧
      ∀ d, (build_request_data cexClient [⟨"system", .str "sys"⟩] [] none none).1
        ≠ .ok d := by
  refine ⟨rfl, ?_⟩
  intro d hd
  rw [(rfl : (build_request_data cexClient [⟨"system", .str "sys"⟩] [] none none).1
    = .error .indexError)] at hd
  exact Except.noConfusion hd

/-- Witness for claim C3 at a concrete input: a list starting with a
user message makes the build fail with the protocol-violation error. -/
theorem build_first_message_system_witness :
    (build_request_data cexClient [⟨"user", .str "hi"⟩, ⟨"user", .str "ho"⟩] [] none none).1
      = .error (.runtimeFirstNotSystem "user") := by
  exact (build_first_message_system cexClient _ [] none none ⟨"user", .str "hi"⟩
    [⟨"user", .str "ho"⟩] (by decide) rfl).1 (by decide)

/-- Claim C4: with extended reasoning enabled, `build_request_data`
fails unless the reasoning budget is set and strictly below max tokens,
fails when inner-thoughts-via-tool-kwarg mode is on, and on success sets
the payload temperature to exactly 1 and does not append the trailing
prefix-priming assistant message (the payload messages are exactly the
processed message list). -/
theorem build_reasoner_constraints (c : Client) (msgs : List AMsg) (tools : List ToolFunction)
    (tc fc : Option String) (M : Nat)
    (hu : c.use_tool_naming = true) (hmt : c.llm_config.max_tokens = some M) (hM : M ≠ 0)
    (hr : c.llm_config.enable_reasoner = true) :
    (budgetOk c.llm_config M = false →
      (build_request_data c msgs tools tc fc).1 = .error .assertBudget) ∧
    (budgetOk c.llm_config M = true → c.llm_config.put_inner_thoughts_in_kwargs = true →
      (build_request_data c msgs tools tc fc).1 = .error .assertKwargsIncompatible) ∧
    (∀ d, (build_request_data c msgs tools tc fc).1 = .ok d →
      d.temperature = 1 ∧
        ∃ sys base, process_messages msgs = .ok (sys, base) ∧ d.messages = base) := by
  refine ⟨?_, ?_, ?_⟩
  · intro hb
    unfold build_request_data
    simp [hu, hmt, hM, hr, hb]
  · intro hb hk
    unfold build_request_data
    simp [hu, hmt, hM, hr, hb, hk]
  · intro d hd
    cases hb : budgetOk c.llm_config M with
    | false =>
      rw [show (build_request_data c msgs tools tc fc).1 = .error .assertBudget by
        unfold build_request_data; simp [hu, hmt, hM, hr, hb]] at hd
      exact Except.noConfusion hd
    | true =>
      cases hk : c.llm_config.put_inner_thoughts_in_kwargs with
      | true =>
        rw [show (build_request_data c msgs tools tc fc).1 = .error .assertKwargsIncompatible by
          unfold build_request_data; simp [hu, hmt, hM, hr, hb, hk]] at hd
        exact Except.noConfusion hd
      | false =>
        have hrk : c.llm_config.enable_reasoner = true →
            budgetOk c.llm_config M = true ∧
              c.llm_config.put_inner_thoughts_in_kwargs = false := fun _ => ⟨hb, hk⟩
        cases hpm : process_messages msgs with
        | error e =>
          rw [build_fst_error c msgs tools tc fc M hu hmt hM hrk e hpm] at hd
          exact Except.noConfusion hd
        | ok sb =>
          obtain ⟨sys, base⟩ := sb
          obtain ⟨d', hd', _, htemp, _, hmsg⟩ :=
            build_fst_ok c msgs tools tc fc M hu hmt hM hrk sys base hpm
          rw [hd'] at hd
          injection hd with hdd
          subst hdd
          rw [hr] at htemp
          exact ⟨by rw [htemp]; rfl, sys, base, rfl, hmsg hr⟩

/-- A concrete client with extended reasoning enabled and
inner-thoughts-kwarg mode also enabled (the incompatible combination). -/
def reasonerKwargClient : Client :=
  ⟨true, ⟨"claude-3-7-sonnet", some 100, 1, true, some 10, true⟩⟩

/-- Witness for claim C4 at a concrete input: reasoning enabled together
with inner-thoughts-kwarg mode makes the build fail with the
incompatibility assertion. -/
theorem build_reasoner_constraints_witness :
    (build_request_data reasonerKwargClient [⟨"system", .str "s"⟩, ⟨"user", .str "u"⟩]
        [] none none).1 = .error .assertKwargsIncompatible := by
  exact (build_reasoner_constraints reasonerKwargClient _ [] none none 100
    rfl rfl (by decide) rfl).2.1 rfl rfl

/-- `remap_finish_reason` from the source: remap Anthropic's
`stop_reason` to an OpenAI `finish_reason`, raising `ValueError` (with
the offending value in the message) on anything unrecognized. -/
def remap_finish_reason (stop_reason : String) : Except String String :=
  if stop_reason = "end_turn" then .ok "stop"
  else if stop_reason = "stop_sequence" then .ok "stop"
  else if stop_reason = "max_tokens" then .ok "length"
  else if stop_reason = "tool_use" then .ok "function_call"
  else .error ("Unexpected stop_reason: " ++ stop_reason)

/-- Claim C5: the finish-reason remapping is exactly the four-entry
table, and every other input fails with an error (never returns a
value). -/
theorem remap_finish_reason_table :
    remap_finish_reason "end_turn" = .ok "stop" ∧
    remap_finish_reason "stop_sequence" = .ok "stop" ∧
    remap_finish_reason "max_tokens" = .ok "length" ∧
    remap_finish_reason "tool_use" = .ok "function_call" ∧
    ∀ s, s ≠ "end_turn" → s ≠ "stop_sequence" → s ≠ "max_tokens" → s ≠ "tool_use" →
      remap_finish_reason s = .error ("Unexpected stop_reason: " ++ s) := by
  refine ⟨rfl, rfl, rfl, rfl, ?_⟩
  intro s h1 h2 h3 h4
  unfold remap_finish_reason
  rw [if_neg h1, if_neg h2, if_neg h3, if_neg h4]

/-- Witness for claim C5 at a concrete unrecognized input. -/
theorem remap_finish_reason_table_witness :
    remap_finish_reason "content_filter" = .error ("Unexpected stop_reason: " ++ "content_filter") := by
  exact remap_finish_reason_table.2.2.2.2 "content_filter"
    (by decide) (by decide) (by decide) (by decide)

/-- The provider SDK exception types relevant to `handle_llm_error`,
with the SDK's subclassing (the six specific HTTP errors are subclasses
of `APIStatusError`) reflected in the `isinstance` test functions below.
`otherError` stands for any exception of none of these types. -/
inductive AnthropicException where
  | apiConnectionError (cause : Option String)
  | rateLimitError
  | badRequestError
  | authenticationError
  | permissionDeniedError
  | notFoundError
  | unprocessableEntityError
  | apiStatusError (status_code : Option Int) (response : Option String)
  | otherError (tag : String)
  deriving Repr, DecidableEq

/-- `isinstance(e, anthropic.APIConnectionError)`. -/
def isAPIConnectionError : AnthropicException → Bool
  | .apiConnectionError _ => true
  | _ => false

/-- `isinstance(e, anthropic.RateLimitError)`. -/
def isRateLimitError : AnthropicException → Bool
  | .rateLimitError => true
  | _ => false

/-- `isinstance(e, anthropic.BadRequestError)`. -/
def isBadRequestError : AnthropicException → Bool
  | .badRequestError => true
  | _ => false

/-- `isinstance(e, anthropic.AuthenticationError)`. -/
def isAuthenticationError : AnthropicException → Bool
  | .authenticationError => true
  | _ => false

/-- `isinstance(e, anthropic.PermissionDeniedError)`. -/
def isPermissionDeniedError : AnthropicException → Bool
  | .permissionDeniedError => true
  | _ => false

/-- `isinstance(e, anthropic.NotFoundError)`. -/
def isNotFoundError : AnthropicException → Bool
  | .notFoundError => true
  | _ => false

/-- `isinstance(e, anthropic.UnprocessableEntityError)`. -/
def isUnprocessableEntityError : AnthropicException → Bool
  | .unprocessableEntityError => true
  | _ => false

/-- `isinstance(e, anthropic.APIStatusError)`: true for the bare status
error and for each of its SDK subclasses. -/
def isAPIStatusError : AnthropicException → Bool
  | .rateLimitError => true
  | .badRequestError => true
  | .authenticationError => true
  | .permissionDeniedError => true
  | .notFoundError => true
  | .unprocessableEntityError => true
  | .apiStatusError _ _ => true
  | _ => false

/-- `str(e.__cause__) if e.__cause__ else None` for a connection error
(an absent or empty cause string is falsy). -/
def causeDetail : AnthropicException → Option String
  | .apiConnectionError (some s) => if s = "" then none else some s
  | _ => none

/-- `e.status_code` for a bare `APIStatusError` (the attribute access in
the `APIStatusError` branch of the classifier). -/
def statusCodeOf : AnthropicException → Option Int
  | .apiStatusError s _ => s
  | _ => none

/-- `str(e.response)` for a bare `APIStatusError`. -/
def responseOf : AnthropicException → Option String
  | .apiStatusError _ r => r
  | _ => none

/-- The canonical error kinds produced by the classifier. -/
inductive LLMErrorKind where
  | connection
  | rateLimit
  | badRequest
  | authentication
  | permissionDenied
  | notFound
  | unprocessable
  | server
  | unknown
  deriving Repr, DecidableEq

/-- The machine codes attached by the classifier. -/
inductive ErrorCode where
  | INTERNAL_SERVER_ERROR
  | RATE_LIMIT_EXCEEDED
  deriving Repr, DecidableEq

/-- A classified canonical error: kind, machine code, and the structured
details dict (string-valued entries, absent values as `none`). -/
structure LLMError where
  kind : LLMErrorKind
  code : ErrorCode
  details : List (String × Option String)
  deriving Repr, DecidableEq

/-- `AnthropicClient.handle_llm_error` from the source: the sequential
`isinstance` cascade.  The fall-through to
`super().handle_llm_error(e)` (defined in `llm_client_base.py`, outside
the given sources) is taken as the function argument `fallback`. -/
def handle_llm_error (fallback : AnthropicException → LLMError)
    (e : AnthropicException) : LLMError :=
  if isAPIConnectionError e then
    ⟨.connection, .INTERNAL_SERVER_ERROR, [("cause", causeDetail e)]⟩
  else if isRateLimitError e then
    ⟨.rateLimit, .RATE_LIMIT_EXCEEDED, []⟩
  else if isBadRequestError e then
    ⟨.badRequest, .INTERNAL_SERVER_ERROR, []⟩
  else if isAuthenticationError e then
    ⟨.authentication, .INTERNAL_SERVER_ERROR, []⟩
  else if isPermissionDeniedError e then
    ⟨.permissionDenied, .INTERNAL_SERVER_ERROR, []⟩
  else if isNotFoundError e then
    ⟨.notFound, .INTERNAL_SERVER_ERROR, []⟩
  else if isUnprocessableEntityError e then
    ⟨.unprocessable, .INTERNAL_SERVER_ERROR, []⟩
  else if isAPIStatusError e then
    ⟨.server, .INTERNAL_SERVER_ERROR,
      [("status_code", (statusCodeOf e).map toString), ("response", responseOf e)]⟩
  else fallback e

/-- Claim C6: the `isinstance` cascade realizes exactly the fixed
mapping table — each provider exception is classified to exactly one
kind, the generic HTTP status error carries the upstream status code and
response body in its details, and anything else delegates to the
default/unknown classification. -/
theorem handle_llm_error_table (fallback : AnthropicException → LLMError) :
    (∀ c, handle_llm_error fallback (.apiConnectionError c) =
      ⟨.connection, .INTERNAL_SERVER_ERROR, [("cause", causeDetail (.apiConnectionError c))]⟩) ∧
    handle_llm_error fallback .rateLimitError = ⟨.rateLimit, .RATE_LIMIT_EXCEEDED, []⟩ ∧
    handle_llm_error fallback .badRequestError = ⟨.badRequest, .INTERNAL_SERVER_ERROR, []⟩ ∧
    handle_llm_error fallback .authenticationError = ⟨.authentication, .INTERNAL_SERVER_ERROR, []⟩ ∧
    handle_llm_error fallback .permissionDeniedError = ⟨.permissionDenied, .INTERNAL_SERVER_ERROR, []⟩ ∧
    handle_llm_error fallback .notFoundError = ⟨.notFound, .INTERNAL_SERVER_ERROR, []⟩ ∧
    handle_llm_error fallback .unprocessableEntityError = ⟨.unprocessable, .INTERNAL_SERVER_ERROR, []⟩ ∧
    (∀ s r, handle_llm_error fallback (.apiStatusError s r) =
      ⟨.server, .INTERNAL_SERVER_ERROR, [("status_code", s.map toString), ("response", r)]⟩) ∧
    (∀ t, handle_llm_error fallback (.otherError t) = fallback (.otherError t)) :=
  ⟨fun _ => rfl, rfl, rfl, rfl, rfl, rfl, rfl, fun _ _ => rfl, fun _ => rfl⟩

/-- One scanning step of the regex fragment `.*?>`: drop characters up
to and including the first `>`; fail on a newline (`.` does not match
newlines) or at end of input. -/
def dropToGt : List Char → Option (List Char)
  | [] => none
  | c :: t => if c = '>' then some t else if c = '\n' then none else dropToGt t

/-- Matching the regex alternative `<tag.*?>` at the head of `s`
(non-greedy: the match ends at the first `>`); returns the suffix after
the match. -/
def matchOpenTag (tag s : List Char) : Option (List Char) :=
  if isPre ('<' :: tag) s then dropToGt (s.drop (tag.length + 1)) else none

/-- The literal closing tag `</tag>`. -/
def closeTagPattern (tag : List Char) : List Char := '<' :: '/' :: (tag ++ ['>'])

/-- Matching the regex alternative `</tag>` at the head of `s`. -/
def matchCloseTag (tag s : List Char) : Option (List Char) :=
  if isPre (closeTagPattern tag) s then some (s.drop (tag.length + 3)) else none

lemma isPre_length : ∀ p s : List Char, isPre p s = true → p.length ≤ s.length := by
  intro p
  induction p with
  | nil => intro s _; simp
  | cons a as ih =>
    intro s h
    cases s with
    | nil => simp [isPre] at h
    | cons b bs =>
      by_cases hab : a = b
      · simp only [isPre, if_pos hab] at h
        simpa using ih bs h
      · simp [isPre, hab] at h

lemma dropToGt_length : ∀ s r : List Char, dropToGt s = some r → r.length < s.length := by
  intro s
  induction s with
  | nil => intro r h; simp [dropToGt] at h
  | cons c t ih =>
    intro r h
    by_cases hc : c = '>'
    · simp only [dropToGt, if_pos hc] at h
      injection h with h
      subst h
      simp
    · by_cases hn : c = '\n'
      · simp [dropToGt, hc, hn] at h
      · simp only [dropToGt, if_neg hc, if_neg hn] at h
        exact Nat.lt_trans (ih r h) (by simp)

lemma matchOpenTag_length (tag s r : List Char) (h : matchOpenTag tag s = some r) :
    r.length < s.length := by
  unfold matchOpenTag at h
  by_cases hp : isPre ('<' :: tag) s = true
  · rw [if_pos hp] at h
    have h1 := dropToGt_length _ _ h
    have h2 : (s.drop (tag.length + 1)).length ≤ s.length := by
      simp [List.length_drop]
    omega
  · rw [if_neg hp] at h
    exact Option.noConfusion h

lemma matchCloseTag_length (tag s r : List Char) (h : matchCloseTag tag s = some r)
    (hs : 0 < s.length) : r.length < s.length := by
  unfold matchCloseTag at h
  by_cases hp : isPre (closeTagPattern tag) s = true
  · rw [if_pos hp] at h
    injection h with h
    subst h
    have hl := isPre_length _ _ hp
    simp only [closeTagPattern, List.length_cons, List.length_append] at hl
    simp [List.length_drop]
    omega
  · rw [if_neg hp] at h
    exact Option.noConfusion h

/-- The scanning loop of `re.sub(f"<{tag}.*?>|</{tag}>", "", string)`:
at each position try the first alternative, then the second, otherwise
keep the character. -/
def stripGo (tag : List Char) (s : List Char) : List Char :=
  match s with
  | [] => []
  | c :: t =>
    match h1 : matchOpenTag tag (c :: t) with
    | some rest => stripGo tag rest
    | none =>
      match h2 : matchCloseTag tag (c :: t) with
      | some rest => stripGo tag rest
      | none => c :: stripGo tag t
termination_by s.length
decreasing_by
  · exact matchOpenTag_length tag (c :: t) rest h1
  · exact matchCloseTag_length tag (c :: t) rest h2 (by simp)
  · simp

/-- `strip_xml_tags` from the source: remove the opening tag
`<tag ...>` and the closing tag `</tag>` everywhere (the tag text is
treated literally, which is the Python behaviour for tag names free of
regex metacharacters — the only tag the module uses is `thinking`);
a `None` tag makes it the identity. -/
def strip_xml_tags (s : String) (tag : Option String) : String :=
  match tag with
  | none => s
  | some t => String.mk (stripGo t.data s.data)

lemma stripGo_nil (tag : List Char) : stripGo tag [] = [] := by
  rw [stripGo]

lemma stripGo_cons_open (tag : List Char) (c : Char) (t rest : List Char)
    (h : matchOpenTag tag (c :: t) = some rest) :
    stripGo tag (c :: t) = stripGo tag rest := by
  rw [stripGo]
  split
  · rename_i rest' heq
    rw [h] at heq
    injection heq with heq
    rw [heq]
  · rename_i heq
    rw [h] at heq
    exact Option.noConfusion heq

lemma stripGo_cons_close (tag : List Char) (c : Char) (t rest : List Char)
    (ho : matchOpenTag tag (c :: t) = none)
    (h : matchCloseTag tag (c :: t) = some rest) :
    stripGo tag (c :: t) = stripGo tag rest := by
  rw [stripGo]
  split
  · rename_i rest' heq
    rw [ho] at heq
    exact Option.noConfusion heq
  · split
    · rename_i rest' heq
      rw [h] at heq
      injection heq with heq
      rw [heq]
    · rename_i heq
      rw [h] at heq
      exact Option.noConfusion heq

lemma stripGo_cons_keep (tag : List Char) (c : Char) (t : List Char)
    (ho : matchOpenTag tag (c :: t) = none)
    (hc : matchCloseTag tag (c :: t) = none) :
    stripGo tag (c :: t) = c :: stripGo tag t := by
  rw [stripGo]
  split
  · rename_i rest' heq
    rw [ho] at heq
    exact Option.noConfusion heq
  · split
    · rename_i rest' heq
      rw [hc] at heq
      exact Option.noConfusion heq
    · rfl

lemma isPre_append_self : ∀ p q : List Char, isPre p (p ++ q) = true := by
  intro p
  induction p with
  | nil => intro q; rfl
  | cons a as ih =>
    intro q
    simp only [List.cons_append, isPre, if_pos rfl]
    exact ih q

lemma matchOpenTag_ne (tag : List Char) (c : Char) (t : List Char) (hc : c ≠ '<') :
    matchOpenTag tag (c :: t) = none := by
  unfold matchOpenTag
  have hpre : isPre ('<' :: tag) (c :: t) = false := by
    simp only [isPre]
    rw [if_neg (fun h => hc h.symm)]
  rw [hpre]
  simp

lemma matchCloseTag_ne (tag : List Char) (c : Char) (t : List Char) (hc : c ≠ '<') :
    matchCloseTag tag (c :: t) = none := by
  unfold matchCloseTag closeTagPattern
  have hpre : isPre ('<' :: '/' :: (tag ++ ['>'])) (c :: t) = false := by
    simp only [isPre]
    rw [if_neg (fun h => hc h.symm)]
  rw [hpre]
  simp

lemma stripGo_no_lt (tag : List Char) : ∀ (inner rest : List Char),
    (∀ ch ∈ inner, ch ≠ '<') →
    stripGo tag (inner ++ rest) = inner ++ stripGo tag rest := by
  intro inner
  induction inner with
  | nil => intro rest _; rfl
  | cons c t ih =>
    intro rest hin
    have hc : c ≠ '<' := hin c (by simp)
    rw [List.cons_append,
      stripGo_cons_keep _ _ _ (matchOpenTag_ne _ _ _ hc) (matchCloseTag_ne _ _ _ hc),
      ih rest (fun ch hch => hin ch (List.mem_cons_of_mem _ hch)), List.cons_append]

lemma dropToGt_attrs : ∀ (attrs rest : List Char), '>' ∉ attrs → '\n' ∉ attrs →
    dropToGt (attrs ++ '>' :: rest) = some rest := by
  intro attrs
  induction attrs with
  | nil => intro rest _ _; simp [dropToGt]
  | cons a as ih =>
    intro rest hg hn
    have ha1 : a ≠ '>' := fun h => hg (h ▸ List.mem_cons_self a as)
    have ha2 : a ≠ '\n' := fun h => hn (h ▸ List.mem_cons_self a as)
    rw [List.cons_append]
    simp only [dropToGt, if_neg ha1, if_neg ha2]
    exact ih rest (fun h => hg (List.mem_cons_of_mem _ h)) (fun h => hn (List.mem_cons_of_mem _ h))

lemma stripGo_close (tag : List Char) (htag : tag ≠ []) (hhd : tag.head? ≠ some '/') :
    stripGo tag (closeTagPattern tag) = [] := by
  obtain ⟨c0, tag', rfl⟩ : ∃ c0 tag', tag = c0 :: tag' := by
    cases tag with
    | nil => exact absurd rfl htag
    | cons a b => exact ⟨a, b, rfl⟩
  have hc0 : c0 ≠ '/' := fun h => hhd (by rw [h]; rfl)
  have hopen : matchOpenTag (c0 :: tag') ('<' :: ('/' :: ((c0 :: tag') ++ ['>']))) = none := by
    unfold matchOpenTag
    have hpre : isPre ('<' :: c0 :: tag') ('<' :: ('/' :: ((c0 :: tag') ++ ['>']))) = false := by
      simp [isPre, hc0]
    rw [hpre]
    simp
  have hlen : ('<' :: ('/' :: ((c0 :: tag') ++ ['>']))).length = (c0 :: tag').length + 3 := by
    simp
  have hclose : matchCloseTag (c0 :: tag') ('<' :: ('/' :: ((c0 :: tag') ++ ['>']))) =
      some [] := by
    unfold matchCloseTag
    have hpre : isPre (closeTagPattern (c0 :: tag')) ('<' :: ('/' :: ((c0 :: tag') ++ ['>']))) = true := by
      have := isPre_append_self (closeTagPattern (c0 :: tag')) []
      rwa [List.append_nil] at this
    rw [if_pos hpre]
    rw [show ('<' :: ('/' :: ((c0 :: tag') ++ ['>']))).drop ((c0 :: tag').length + 3) = [] from by
      rw [← hlen, List.drop_length]]
  rw [show closeTagPattern (c0 :: tag') = '<' :: ('/' :: ((c0 :: tag') ++ ['>'])) from rfl,
    stripGo_cons_close _ _ _ _ hopen hclose, stripGo_nil]

lemma stripGo_tagpair (tag attrs inner : List Char)
    (htag : tag ≠ []) (hhd : tag.head? ≠ some '/')
    (hgt : '>' ∉ attrs) (hnl : '\n' ∉ attrs) (hlt : '<' ∉ inner) :
    stripGo tag ('<' :: (tag ++ (attrs ++ ('>' :: (inner ++ closeTagPattern tag))))) = inner := by
  have hopen : matchOpenTag tag
      ('<' :: (tag ++ (attrs ++ ('>' :: (inner ++ closeTagPattern tag))))) =
        some (inner ++ closeTagPattern tag) := by
    unfold matchOpenTag
    have hpre : isPre ('<' :: tag)
        ('<' :: (tag ++ (attrs ++ ('>' :: (inner ++ closeTagPattern tag))))) = true := by
      have := isPre_append_self ('<' :: tag) (attrs ++ ('>' :: (inner ++ closeTagPattern tag)))
      rwa [List.cons_append] at this
    rw [if_pos hpre]
    rw [show ('<' :: (tag ++ (attrs ++ ('>' :: (inner ++ closeTagPattern tag))))).drop
          (tag.length + 1) =
        attrs ++ ('>' :: (inner ++ closeTagPattern tag)) from by
      rw [List.drop_succ_cons]
      exact List.drop_left _ _]
    exact dropToGt_attrs attrs (inner ++ closeTagPattern tag) hgt hnl
  rw [stripGo_cons_open _ _ _ _ hopen,
    stripGo_no_lt tag inner (closeTagPattern tag) (fun ch hch h => hlt (h ▸ hch)),
    stripGo_close tag htag hhd, List.append_nil]

lemma string_data_append (s t : String) : (s ++ t).data = s.data ++ t.data := rfl

/-- Claim C8: `strip_xml_tags` is the identity when the tag is unset;
it removes exactly the opening tag (attributes allowed) and the closing
tag, leaving the inner content intact; in particular stripping
`thinking` from `<thinking>hello</thinking>` gives `hello`. -/
theorem strip_xml_tags_spec :
    (∀ s, strip_xml_tags s none = s) ∧
    (∀ (tag attrs inner : String),
      tag.data ≠ [] → tag.data.head? ≠ some '/' →
      '>' ∉ attrs.data → '\n' ∉ attrs.data → '<' ∉ inner.data →
      strip_xml_tags ("<" ++ tag ++ attrs ++ ">" ++ inner ++ "</" ++ tag ++ ">") (some tag)
        = inner) ∧
    strip_xml_tags "<thinking>hello</thinking>" (some "thinking") = "hello" := by
  have hmain : ∀ (tag attrs inner : String),
      tag.data ≠ [] → tag.data.head? ≠ some '/' →
      '>' ∉ attrs.data → '\n' ∉ attrs.data → '<' ∉ inner.data →
      strip_xml_tags ("<" ++ tag ++ attrs ++ ">" ++ inner ++ "</" ++ tag ++ ">") (some tag)
        = inner := by
    intro tag attrs inner h1 h2 h3 h4 h5
    show String.mk (stripGo tag.data ("<" ++ tag ++ attrs ++ ">" ++ inner ++ "</" ++ tag ++ ">").data) = inner
    have hdata : ("<" ++ tag ++ attrs ++ ">" ++ inner ++ "</" ++ tag ++ ">").data =
        '<' :: (tag.data ++ (attrs.data ++ ('>' :: (inner.data ++ closeTagPattern tag.data)))) := by
      simp only [string_data_append, closeTagPattern, List.append_assoc]
      rfl
    rw [hdata, stripGo_tagpair _ _ _ h1 h2 h3 h4 h5]
  refine ⟨fun s => rfl, hmain, ?_⟩
  exact hmain "thinking" "" "hello" (by decide) (by decide) (by decide) (by decide) (by decide)

/-- Witness for claim C8 at a concrete input with attributes in the
opening tag. -/
theorem strip_xml_tags_spec_witness :
    strip_xml_tags "<thinking a=1>hi</thinking>" (some "thinking") = "hi" := by
  exact strip_xml_tags_spec.2.1 "thinking" " a=1" "hi"
    (by decide) (by decide) (by decide) (by decide) (by decide)

/-- Python's `result.replace(part, "")`: remove every (non-overlapping,
left-to-right) occurrence of `p` from `s`. -/
def replaceAll (p : List Char) (s : List Char) : List Char :=
  match s with
  | [] => []
  | c :: t =>
    if h : p ≠ [] ∧ isPre p (c :: t) = true then
      replaceAll p ((c :: t).drop p.length)
    else
      c :: replaceAll p t
termination_by s.length
decreasing_by
  · have hp : 1 ≤ p.length := by
      cases hpp : p with
      | nil => exact absurd hpp h.1
      | cons a b => simp
    simp only [List.length_drop, List.length_cons]
    omega
  · simp

lemma replaceAll_nil (p : List Char) : replaceAll p [] = [] := by
  rw [replaceAll]

lemma replaceAll_cons_match (p : List Char) (c : Char) (t : List Char)
    (h : p ≠ [] ∧ isPre p (c :: t) = true) :
    replaceAll p (c :: t) = replaceAll p ((c :: t).drop p.length) := by
  rw [replaceAll, dif_pos h]

lemma replaceAll_cons_nomatch (p : List Char) (c : Char) (t : List Char)
    (h : ¬(p ≠ [] ∧ isPre p (c :: t) = true)) :
    replaceAll p (c :: t) = c :: replaceAll p t := by
  rw [replaceAll, dif_neg h]

lemma replaceAll_subset_aux (p : List Char) :
    ∀ (n : Nat) (s : List Char), s.length ≤ n → ∀ a, a ∈ replaceAll p s → a ∈ s := by
  intro n
  induction n with
  | zero =>
    intro s hs a ha
    rw [List.length_eq_zero.mp (Nat.le_zero.mp hs), replaceAll_nil] at ha
    exact absurd ha (List.not_mem_nil a)
  | succ n ih =>
    intro s hs a ha
    cases s with
    | nil =>
      rw [replaceAll_nil] at ha
      exact absurd ha (List.not_mem_nil a)
    | cons c t =>
      by_cases h : p ≠ [] ∧ isPre p (c :: t) = true
      · rw [replaceAll_cons_match p c t h] at ha
        have hd : ((c :: t).drop p.length).length ≤ n := by
          have hp : 1 ≤ p.length := by
            cases hpp : p with
            | nil => exact absurd hpp h.1
            | cons x y => simp
          simp only [List.length_drop, List.length_cons]
          simp only [List.length_cons] at hs
          omega
        exact List.mem_of_mem_drop (ih _ hd a ha)
      · rw [replaceAll_cons_nomatch p c t h] at ha
        rcases List.mem_cons.mp ha with rfl | hmem
        · exact List.mem_cons_self a t
        · exact List.mem_cons_of_mem c (ih t (by simp only [List.length_cons] at hs; omega) a hmem)

lemma replaceAll_subset (p s : List Char) : ∀ a, a ∈ replaceAll p s → a ∈ s :=
  replaceAll_subset_aux p s.length s le_rfl

lemma replaceAll_single_aux (c : Char) :
    ∀ (n : Nat) (s : List Char), s.length ≤ n → c ∉ replaceAll [c] s := by
  intro n
  induction n with
  | zero =>
    intro s hs
    rw [List.length_eq_zero.mp (Nat.le_zero.mp hs), replaceAll_nil]
    exact List.not_mem_nil c
  | succ n ih =>
    intro s hs
    cases s with
    | nil => rw [replaceAll_nil]; exact List.not_mem_nil c
    | cons d t =>
      by_cases hcd : c = d
      · rw [replaceAll_cons_match [c] d t ⟨by simp, by simp [isPre, hcd]⟩]
        simp only [List.length_cons, List.drop_succ_cons, List.drop_zero]
        exact ih t (by simp only [List.length_cons] at hs; omega)
      · rw [replaceAll_cons_nomatch [c] d t (by simp [isPre, hcd])]
        intro hmem
        rcases List.mem_cons.mp hmem with h | h
        · exact hcd h
        · exact ih t (by simp only [List.length_cons] at hs; omega) h

lemma replaceAll_single (c : Char) (s : List Char) : c ∉ replaceAll [c] s :=
  replaceAll_single_aux c s.length s le_rfl

/-- The fixed list of partial-tag fragments removed by
`strip_xml_tags_streaming`, in removal order. -/
def partsToRemove (tag : List Char) : List (List Char) :=
  [['<'], '<' :: tag, '<' :: '/' :: tag, '/' :: (tag ++ ['>']), tag ++ ['>'], '/' :: tag, ['>']]

/-- `strip_xml_tags_streaming` from the source: sequentially remove each
partial-tag fragment from the streamed text; a `None` tag makes it the
identity. -/
def strip_xml_tags_streaming (s : String) (tag : Option String) : String :=
  match tag with
  | none => s
  | some t => String.mk ((partsToRemove t.data).foldl (fun acc p => replaceAll p acc) s.data)

/-- Claim C10: for every input and non-empty tag, the streamed-stripping
output contains no angle bracket at all, and introduces no characters
that were not in the input. -/
theorem strip_streaming_no_angle_brackets (s : String) (tag : String) (htag : tag ≠ "") :
    '<' ∉ (strip_xml_tags_streaming s (some tag)).data ∧
    '>' ∉ (strip_xml_tags_streaming s (some tag)).data ∧
    ∀ ch ∈ (strip_xml_tags_streaming s (some tag)).data, ch ∈ s.data := by
  show '<' ∉ (partsToRemove tag.data).foldl (fun acc p => replaceAll p acc) s.data ∧
    '>' ∉ (partsToRemove tag.data).foldl (fun acc p => replaceAll p acc) s.data ∧
    ∀ ch ∈ (partsToRemove tag.data).foldl (fun acc p => replaceAll p acc) s.data, ch ∈ s.data
  simp only [partsToRemove, List.foldl_cons, List.foldl_nil]
  refine ⟨?_, ?_, ?_⟩
  · intro hmem
    have h1 : '<' ∈ replaceAll ['<'] s.data :=
      replaceAll_subset _ _ _
        (replaceAll_subset _ _ _
          (replaceAll_subset _ _ _
            (replaceAll_subset _ _ _
              (replaceAll_subset _ _ _
                (replaceAll_subset _ _ _ hmem)))))
    exact replaceAll_single '<' s.data h1
  · intro hmem
    exact replaceAll_single '>' _ hmem
  · intro ch hmem
    exact replaceAll_subset _ _ _
      (replaceAll_subset _ _ _
        (replaceAll_subset _ _ _
          (replaceAll_subset _ _ _
            (replaceAll_subset _ _ _
              (replaceAll_subset _ _ _
                (replaceAll_subset _ _ _ hmem))))))

/-- Witness for claim C10 at a concrete input. -/
theorem strip_streaming_no_angle_brackets_witness :
    '<' ∉ (strip_xml_tags_streaming "a<thinking>b" (some "thinking")).data ∧
    '>' ∉ (strip_xml_tags_streaming "a<thinking>b" (some "thinking")).data ∧
    ∀ ch ∈ (strip_xml_tags_streaming "a<thinking>b" (some "thinking")).data,
      ch ∈ ("a<thinking>b" : String).data := by
  exact strip_streaming_no_angle_brackets "a<thinking>b" "thinking" (by decide)

/-- The indentation prefix produced by `json.dumps(..., indent=2)` at
nesting level `lvl`. -/
def indentStr (lvl : Nat) : String := String.mk (List.replicate (2 * lvl) ' ')

/-- Lowercase hexadecimal digit, as produced by Python's JSON encoder. -/
def hexDigitChar (n : Nat) : Char :=
  if n < 10 then Char.ofNat (48 + n) else Char.ofNat (87 + n)

/-- Four-digit hexadecimal rendering for `\uXXXX` escapes. -/
def hex4 (n : Nat) : String :=
  String.mk [hexDigitChar (n / 4096 % 16), hexDigitChar (n / 256 % 16),
    hexDigitChar (n / 16 % 16), hexDigitChar (n % 16)]

/-- Escaping of one character in a JSON string literal, following
Python's `json.dumps` defaults (`ensure_ascii=True`). -/
def jsonEscapeChar (c : Char) : String :=
  if c = '"' then "\\\""
  else if c = '\\' then "\\\\"
  else if c = '\n' then "\\n"
  else if c = '\r' then "\\r"
  else if c = '\t' then "\\t"
  else if c.toNat = 8 then "\\b"
  else if c.toNat = 12 then "\\f"
  else if c.toNat < 32 ∨ c.toNat > 126 then
    if c.toNat ≤ 65535 then "\\u" ++ hex4 c.toNat
    else
      "\\u" ++ hex4 (55296 + (c.toNat - 65536) / 1024) ++
        "\\u" ++ hex4 (56320 + (c.toNat - 65536) % 1024)
  else String.singleton c

/-- A JSON string literal with quotes and escapes. -/
def jsonQuote (s : String) : String :=
  "\"" ++ String.join (s.data.map jsonEscapeChar) ++ "\""

mutual

/-- The recursion of Python's `json.dumps(obj, indent=2)` (comma item
separator, `": "` key separator — the defaults when an indent is
given): the value renderer at a nesting level. -/
def dumpsVal : Json → Nat → String
  | .null, _ => "null"
  | .bool b, _ => if b then "true" else "false"
  | .num n, _ => toString n
  | .str s, _ => jsonQuote s
  | .arr [], _ => "[]"
  | .arr (x :: xs), lvl =>
    "[\n" ++ dumpsArrItems (x :: xs) (lvl + 1) ++ "\n" ++ indentStr lvl ++ "]"
  | .obj [], _ => "\x7b\x7d"
  | .obj (f :: fs), lvl =>
    "\x7b\n" ++ dumpsObjItems (f :: fs) (lvl + 1) ++ "\n" ++ indentStr lvl ++ "\x7d"

def dumpsArrItems : List Json → Nat → String
  | [], _ => ""
  | [x], lvl => indentStr lvl ++ dumpsVal x lvl
  | x :: y :: rest, lvl =>
    indentStr lvl ++ dumpsVal x lvl ++ ",\n" ++ dumpsArrItems (y :: rest) lvl

def dumpsObjItems : List (String × Json) → Nat → String
  | [], _ => ""
  | [(k, v)], lvl => indentStr lvl ++ jsonQuote k ++ ": " ++ dumpsVal v lvl
  | (k, v) :: f :: rest, lvl =>
    indentStr lvl ++ jsonQuote k ++ ": " ++ dumpsVal v lvl ++ ",\n" ++ dumpsObjItems (f :: rest) lvl

end

/-- `json.dumps(v, indent=2)`. -/
def json_dumps_indent2 (v : Json) : String := dumpsVal v 0

/-- The canonical token-usage counters. -/
structure UsageStatistics where
  prompt_tokens : Nat
  completion_tokens : Nat
  total_tokens : Nat
  deriving Repr, DecidableEq

/-- A canonical function call: name and JSON-serialized arguments. -/
structure FunctionCall where
  name : String
  arguments : String
  deriving Repr, DecidableEq

/-- A canonical tool call. -/
structure ToolCall where
  id : String
  type : String
  function : FunctionCall
  deriving Repr, DecidableEq

/-- The canonical choice message assembled by the normalizer. -/
structure ChoiceMessage where
  role : String
  content : Option String
  reasoning_content : Option String
  reasoning_content_signature : Option String
  redacted_reasoning_content : Option String
  tool_calls : Option (List ToolCall)
  deriving Repr, DecidableEq

/-- A canonical response choice. -/
structure Choice where
  index : Nat
  finish_reason : String
  message : ChoiceMessage
  deriving Repr, DecidableEq

/-- The canonical chat completion response (the `created` timestamp,
drawn from the wall clock, is omitted from the model). -/
structure ChatCompletionResponse where
  id : String
  choices : List Choice
  model : String
  usage : UsageStatistics
  deriving Repr, DecidableEq

/-- A content block of the provider response. -/
inductive ContentPart where
  | text (text : String)
  | tool_use (id : String) (name : String) (input : Json)
  | thinking (thinking : String) (signature : String)
  | redacted_thinking (data : String)
  deriving Repr

/-- The provider response usage counters. -/
structure AnthropicUsage where
  input_tokens : Nat
  output_tokens : Nat
  deriving Repr, DecidableEq

/-- The provider response payload (after the typed decode
`AnthropicMessage(**response_data)`). -/
structure AnthropicResponse where
  id : String
  role : String
  content : List ContentPart
  model : String
  stop_reason : Option String
  usage : AnthropicUsage
  deriving Repr

/-- The failures of `convert_response_to_chat_completion`: the
`ValueError` escaping from `remap_finish_reason`, the `RuntimeError` on
empty content, and the failed `assert response.role == "assistant"`. -/
inductive ConvErr where
  | valueError (msg : String)
  | emptyContent
  | assertRole
  deriving Repr, DecidableEq

/-- Python's `str` applied to an optional string (`str(None)` is the
literal `"None"`), as in `remap_finish_reason(str(response.stop_reason))`. -/
def pyStrOptional : Option String → String
  | none => "None"
  | some s => s

/-- The accumulator of the content-block scanning loop of
`convert_response_to_chat_completion`. -/
structure ConvState where
  content : Option String
  reasoning_content : Option String
  reasoning_content_signature : Option String
  redacted_reasoning_content : Option String
  tool_calls : Option (List ToolCall)
  deriving Repr, DecidableEq

/-- One iteration of the content-block loop: a `text` block's text has
the `thinking` tag stripped and becomes the content; a `tool_use` block
becomes the single retained tool call with pretty-printed arguments; a
`thinking` block fills the reasoning fields; a `redacted_thinking`
block fills the redacted field.  Later blocks of the same type
overwrite earlier ones. -/
def convStep (st : ConvState) (part : ContentPart) : ConvState :=
  match part with
  | .text t => { st with content := some (strip_xml_tags t (some "thinking")) }
  | .tool_use i n inp =>
    { st with tool_calls := some [⟨i, "function", ⟨n, json_dumps_indent2 inp⟩⟩] }
  | .thinking th sig =>
    { st with reasoning_content := some th, reasoning_content_signature := some sig }
  | .redacted_thinking d => { st with redacted_reasoning_content := some d }

/-- `AnthropicClient.convert_response_to_chat_completion` from the
source.  The post-processing helper
`unpack_all_inner_thoughts_from_kwargs` (defined in
`letta/llm_api/helpers.py`, outside the given sources) is taken as the
function argument `unpack`; it is applied exactly when
`put_inner_thoughts_in_kwargs` is set, as at the end of the source
function. -/
def convert_response_to_chat_completion
    (unpack : ChatCompletionResponse → ChatCompletionResponse)
    (cfg : LLMConfig) (response : AnthropicResponse) : Except ConvErr ChatCompletionResponse :=
  match remap_finish_reason (pyStrOptional response.stop_reason) with
  | .error m => .error (.valueError m)
  | .ok finish_reason =>
    if response.content.isEmpty then .error .emptyContent
    else
      let st := response.content.foldl convStep ⟨none, none, none, none, none⟩
      if response.role = "assistant" then
        let base : ChatCompletionResponse :=
          ⟨response.id,
            [⟨0, finish_reason,
              ⟨response.role, st.content, st.reasoning_content,
                st.reasoning_content_signature, st.redacted_reasoning_content,
                st.tool_calls⟩⟩],
            response.model,
            ⟨response.usage.input_tokens, response.usage.output_tokens,
              response.usage.input_tokens + response.usage.output_tokens⟩⟩
        .ok (if cfg.put_inner_thoughts_in_kwargs then unpack base else base)
      else .error .assertRole

/-- Claim C7: normalizing a `tool_use` response with a single tool-use
block `{id: "t1", name: "f", input: {"a": 1}}` yields finish reason
`function_call` and exactly one tool call with id `t1`, name `f`, and
2-space pretty-printed JSON arguments. -/
theorem convert_tool_use_example :
    convert_response_to_chat_completion id
        ⟨"claude-3-haiku-20240307", some 100, 1, false, none, false⟩
        ⟨"msg_01", "assistant",
          [.tool_use "t1" "f" (.obj [("a", .num 1)])],
          "claude-3-haiku-20240307", some "tool_use", ⟨3, 4⟩⟩ =
      .ok ⟨"msg_01",
        [⟨0, "function_call",
          ⟨"assistant", none, none, none, none,
            some [⟨"t1", "function", ⟨"f", "\x7b\n  \"a\": 1\n\x7d"⟩⟩]⟩⟩],
        "claude-3-haiku-20240307", ⟨3, 4, 7⟩⟩ := by
  rfl
